import Mathlib

/-!
Shallow embedding of `src/src/lib.rs` of `sqlx_sqlite_consistency`: a data-access
layer over SQLite exposing `insert`, `full_insert` and `select` on one table
`my_table(id INTEGER PRIMARY KEY, batch_id INTEGER)`, plus the schema
initializer `init_db`.

Modelling choices, each tied to the source:
* a database state is the committed table rows in physical insertion order,
  the schema-existence flags manipulated by `DB_INIT_SQL`, and the pending
  rows of insert statements whose `RETURNING` row was delivered but whose
  statement was not yet finalized/committed when the pooled connection was
  released — the state `fetch_one` can leave behind and the crate's flaky
  test exhibits, while `full_insert`'s drain loop rules it out by forcing the
  statement to exhaustion before release;
* a reader sees only committed rows; a later write statement serializes
  behind the pending commit on SQLite's write lock, so pending rows flush
  before it executes; whether a `fetch_one` insert's row is committed by the
  time the next operation runs is a race, passed to `insert` as the
  `finalized` argument;
* SQLite assigns the new `INTEGER PRIMARY KEY` as (largest existing id) + 1,
  starting at 1 on an empty table; this is `nextId`;
* a sqlx fetch stream is a finite list of items, each either a row or an
  error, followed by exhaustion; the Rust loops over `try_next`/`next` become
  structural recursion over that list;
* the Rust functions return bare `i64`/`Vec<i64>` and fail only through
  `.unwrap()` on an `Err` or an explicit panic with a message; an operation
  outcome is therefore either a normal value or a `Panic`.
-/

namespace SqlxConsistency

/-- A row of `my_table`: columns `id INTEGER PRIMARY KEY` and
`batch_id INTEGER` (see `DB_INIT_SQL` in the source). -/
structure Row where
  id : Int
  batch_id : Int
deriving DecidableEq

/-- An error surfaced by the sqlx binding through a stream or a one-row fetch:
no row found (`fetch_one` on an empty result), pool-acquire timeout, busy
timeout, or a failed statement. -/
inductive SqlxError where
  | rowNotFound
  | poolTimedOut
  | busyTimeout
  | statementFailed (msg : String)
deriving DecidableEq

/-- How a Rust operation of this crate aborts: `.unwrap()` applied to an
`Err`, or an explicit panic carrying a message. -/
inductive Panic where
  | unwrapFailed (e : SqlxError)
  | explicitPanic (msg : String)
deriving DecidableEq

/-- Outcome of one operation: a normal return value, or a panic. The Rust
signatures return plain `i64` / `Vec<i64>`; every failure path in the source
goes through unwrap or panic, so there is no error-valued return. -/
inductive Outcome (α : Type) where
  | ok (a : α)
  | panicked (p : Panic)
deriving DecidableEq

/-- One item pulled from a sqlx fetch stream before exhaustion: a row or an
error. The stream itself is a `List StreamItem`. -/
inductive StreamItem where
  | row (r : Row)
  | err (e : SqlxError)
deriving DecidableEq

/-- Database state: the schema-existence flags touched by `DB_INIT_SQL`, the
committed rows of `my_table` in physical insertion order (what a reader's
snapshot sees), and the pending rows — rows of insert statements whose
`RETURNING` row was already delivered but whose statement was not yet
finalized/committed when the connection went back to the pool. `fetch_one`
can release the connection in that state; this is the hazard the crate
exists to exhibit. -/
structure DBState where
  table_exists : Bool
  index_exists : Bool
  rows : List Row
  pending : List Row
deriving DecidableEq

/-- Completion of outstanding unfinalized insert statements: their rows commit
and become visible to readers. SQLite's write lock forces this before any
later write statement executes, and draining a statement to exhaustion forces
it before the draining call returns. -/
def flushPending (db : DBState) : DBState :=
  { db with rows := db.rows ++ db.pending, pending := [] }

/-- Largest `id` present in the table, `0` on an empty table. -/
def maxId (rows : List Row) : Int :=
  (rows.map Row.id).foldr max 0

/-- The id SQLite assigns to the next inserted row of `my_table`:
`id INTEGER PRIMARY KEY` is a rowid alias, and a fresh rowid is the largest
existing rowid plus one (1 on an empty table). -/
def nextId (rows : List Row) : Int :=
  maxId rows + 1

/-- Executing `INSERT INTO my_table (batch_id) VALUES (?) RETURNING id` on a
healthy engine: the statement waits on the write lock, so earlier unfinalized
inserts commit first; the engine assigns the next id and delivers the
returning row on the result stream, but the new row is not yet committed — it
stays pending until the statement is finalized (by draining it, or under a
favorable schedule at release, or at latest before the next write statement
acquires the write lock). -/
def execInsertReturning (db : DBState) (b : Int) : DBState × List StreamItem :=
  ({ flushPending db with pending := [⟨nextId (flushPending db).rows, b⟩] },
   [StreamItem.row ⟨nextId (flushPending db).rows, b⟩])

/-- Insertion sort step used to model the SQL `ORDER BY id` clause. -/
def insertSorted (x : Int) : List Int → List Int
  | [] => [x]
  | y :: ys => if x ≤ y then x :: y :: ys else y :: insertSorted x ys

/-- Sorting by ascending value, modelling `ORDER BY id`. -/
def sortIds : List Int → List Int
  | [] => []
  | x :: xs => insertSorted x (sortIds xs)

/-- The ids of the rows whose `batch_id` matches the bound parameter, in
physical table order (the `WHERE batch_id = ?` clause before ordering). -/
def filteredIds (db : DBState) (b : Int) : List Int :=
  (db.rows.filter (fun r => r.batch_id == b)).map Row.id

/-- The ids produced by `SELECT id FROM my_table where batch_id = ? ORDER BY id`
on a healthy engine: the ids of the rows whose `batch_id` matches, in
ascending id order. -/
def selectedIds (db : DBState) (b : Int) : List Int :=
  sortIds (filteredIds db b)

/-- Result stream of the select statement: one row per selected id, in order. -/
def execSelect (db : DBState) (b : Int) : List StreamItem :=
  (selectedIds db b).map (fun i => StreamItem.row ⟨i, b⟩)

/-- The drain loop `while results.next().await.is_some() {}` of `full_insert`:
pulls every remaining item off the stream, discarding rows and errors alike,
and stops only at exhaustion. Returns the unread remainder, which is empty. -/
def drainLoop : List StreamItem → List StreamItem
  | [] => []
  | _ :: rest => drainLoop rest

/-- Body of `full_insert` run against a result stream: one
`results.try_next().await.unwrap()` (panicking on an error item), the
explicit panic with message "insert failed" when the stream is already
exhausted, then the drain loop; the first row's id is returned. The second
component is the unread remainder of the stream at the moment the function
exits (and the connection goes back to the pool). -/
def fullInsertRun : List StreamItem → Outcome Int × List StreamItem
  | [] => (.panicked (.explicitPanic "insert failed"), [])
  | .err e :: rest => (.panicked (.unwrapFailed e), rest)
  | .row r :: rest => (.ok r.id, drainLoop rest)

/-- Body of `insert` run against a result stream: sqlx `fetch_one` takes the
first row and drops the rest of the stream; zero rows is the `RowNotFound`
error; `.unwrap()` panics on any error. The second component is the unread
remainder of the stream when the function exits. -/
def insertRun : List StreamItem → Outcome Int × List StreamItem
  | [] => (.panicked (.unwrapFailed .rowNotFound), [])
  | .err e :: rest => (.panicked (.unwrapFailed e), rest)
  | .row r :: rest => (.ok r.id, rest)

/-- The loop of `select`: `while let Some(row) = r.try_next().await.unwrap()`
pushes each row's id onto the accumulator and panics on an error item. -/
def selectLoop : List StreamItem → List Int → Outcome (List Int)
  | [], acc => .ok acc
  | .err e :: _, _ => .panicked (.unwrapFailed e)
  | .row r :: rest, acc => selectLoop rest (acc ++ [r.id])

/-- The method `DatabaseAccess::insert`: execute the insert statement via
`fetch_one`, return the first row's id. `fetch_one` takes the single row and
releases the connection without draining the statement, so whether the
statement was finalized (its row committed and visible to subsequent reads)
by the time the next operation runs is a race with the pooled connection's
background work; the `finalized` argument is that race's outcome. -/
def insert (db : DBState) (b : Int) (finalized : Bool) : DBState × Outcome Int :=
  ((if finalized then flushPending (execInsertReturning db b).1
    else (execInsertReturning db b).1),
   (insertRun (execInsertReturning db b).2).1)

/-- The method `DatabaseAccess::full_insert`: execute the insert statement via
the streaming `fetch`, take the first row, drain to exhaustion — which
finalizes the statement and commits the row before the connection is
released — and return the first row's id. -/
def full_insert (db : DBState) (b : Int) : DBState × Outcome Int :=
  (flushPending (execInsertReturning db b).1,
   (fullInsertRun (execInsertReturning db b).2).1)

/-- The method `DatabaseAccess::select`: stream all matching rows and collect
their ids in arrival order. -/
def select (db : DBState) (b : Int) : Outcome (List Int) :=
  selectLoop (execSelect db b) []

/-- First statement of `DB_INIT_SQL`: `CREATE TABLE IF NOT EXISTS my_table`;
creating an absent table yields an empty table, an existing one is untouched. -/
def createTableIfNotExists (db : DBState) : DBState :=
  if db.table_exists then db
  else { table_exists := true, index_exists := db.index_exists, rows := [],
         pending := db.pending }

/-- Second statement of `DB_INIT_SQL`:
`CREATE INDEX IF NOT EXISTS my_table_name`; rows are never touched. -/
def createIndexIfNotExists (db : DBState) : DBState :=
  if db.index_exists then db else { db with index_exists := true }

/-- The method `DatabaseAccess::init_db`: runs the two-statement
`DB_INIT_SQL` script (and drains the per-statement result stream). -/
def init_db (db : DBState) : DBState :=
  createIndexIfNotExists (createTableIfNotExists db)

/-- One public insert operation: the `fetch_one` variant tagged with the
outcome of its finalize-before-release race, or the draining variant (which
has no such race). -/
inductive Op where
  | ins (b : Int) (finalized : Bool)
  | fins (b : Int)
deriving DecidableEq

/-- The partition key an operation targets. -/
def opBatch : Op → Int
  | .ins b _ => b
  | .fins b => b

/-- Run one insert operation of either variant. -/
def applyOp (db : DBState) : Op → DBState × Outcome Int
  | .ins b f => insert db b f
  | .fins b => full_insert db b

/-- Run a list of insert operations one-at-a-time, each fully completed before
the next begins, collecting the returned ids in completion order. -/
def runOps (db : DBState) : List Op → DBState × List Int
  | [] => (db, [])
  | op :: ops =>
    ((runOps (applyOp db op).1 ops).1,
     (match (applyOp db op).2 with
      | .ok i => [i]
      | .panicked _ => []) ++ (runOps (applyOp db op).1 ops).2)

/-- For each batch id in the list, perform two `full_insert` calls for that
batch (the serialization of the two concurrent calls: each call owns its
pooled connection exclusively and fully drains its statement before release,
and both calls are the same operation on the same batch, so either
interleaving order is this same composition), recording the two outcomes. -/
def runBatches (db : DBState) : List Int → DBState × List (Int × Outcome Int × Outcome Int)
  | [] => (db, [])
  | b :: bs =>
    ((runBatches (full_insert (full_insert db b).1 b).1 bs).1,
     (b, (full_insert db b).2, (full_insert (full_insert db b).1 b).2)
       :: (runBatches (full_insert (full_insert db b).1 b).1 bs).2)

/-- A fold of `max` is at least its initial value. -/
theorem le_foldr_max (l : List Int) (a : Int) : a ≤ l.foldr max a := by
  induction l with
  | nil => exact le_refl a
  | cons x xs ih => exact le_trans ih (le_max_right x _)

/-- A fold of `max` is at least every list element. -/
theorem mem_le_foldr_max {x : Int} {l : List Int} (a : Int) (h : x ∈ l) :
    x ≤ l.foldr max a := by
  induction l with
  | nil => cases h
  | cons y ys ih =>
    rcases List.mem_cons.mp h with rfl | hm
    · exact le_max_left _ _
    · exact le_trans (ih hm) (le_max_right _ _)

/-- A fold of `max` over elements bounded by the initial value returns it. -/
theorem foldr_max_of_le {l : List Int} {a : Int} (h : ∀ x ∈ l, x ≤ a) :
    l.foldr max a = a := by
  induction l with
  | nil => rfl
  | cons x xs ih =>
    have hx := h x (List.mem_cons_self x xs)
    have hxs : xs.foldr max a = a := ih (fun y hy => h y (List.mem_cons_of_mem _ hy))
    simp only [List.foldr, hxs, max_eq_right hx]

/-- The largest id of a table is nonnegative. -/
theorem maxId_nonneg (rows : List Row) : 0 ≤ maxId rows := le_foldr_max _ 0

/-- Every row's id is bounded by the table's largest id. -/
theorem id_le_maxId {r : Row} {rows : List Row} (h : r ∈ rows) : r.id ≤ maxId rows :=
  mem_le_foldr_max 0 (List.mem_map_of_mem Row.id h)

/-- Appending a row whose id dominates the table makes that id the largest. -/
theorem maxId_snoc (rows : List Row) (r : Row) (h0 : 0 ≤ r.id)
    (h : ∀ s ∈ rows, s.id ≤ r.id) : maxId (rows ++ [r]) = r.id := by
  unfold maxId
  rw [List.map_append, List.foldr_append]
  simp only [List.map_cons, List.map_nil, List.foldr_cons, List.foldr_nil]
  rw [max_eq_left h0]
  exact foldr_max_of_le (by
    intro x hx
    rcases List.mem_map.mp hx with ⟨s, hs, rfl⟩
    exact h s hs)

/-- Appending the freshly assigned row makes its id the table's largest. -/
theorem maxId_snoc_nextId (rows : List Row) (b : Int) :
    maxId (rows ++ [⟨nextId rows, b⟩]) = nextId rows := by
  refine maxId_snoc rows _ ?_ ?_
  · show (0 : Int) ≤ nextId rows
    have := maxId_nonneg rows
    unfold nextId
    omega
  · intro s hs
    show s.id ≤ nextId rows
    have := id_le_maxId hs
    unfold nextId
    omega

/-- A state with nothing pending is unchanged by completion. -/
theorem flushPending_eq_self {db : DBState} (h : db.pending = []) :
    flushPending db = db := by
  cases db with
  | mk t i r p => simp_all [flushPending]

/-- Characterization of `full_insert`: prior pending work and the new row are
all committed at return, and the fresh id is returned. -/
theorem full_insert_eq (db : DBState) (b : Int) :
    full_insert db b
      = ({ flushPending db with
            rows := (flushPending db).rows ++ [⟨nextId (flushPending db).rows, b⟩] },
         .ok (nextId (flushPending db).rows)) := rfl

/-- Characterization of `insert` under the favorable schedule: identical to
`full_insert`. -/
theorem insert_true_eq (db : DBState) (b : Int) :
    insert db b true = full_insert db b := rfl

/-- Characterization of `insert` under the adverse schedule: the fresh id is
returned but its row is still pending, invisible to readers. -/
theorem insert_false_eq (db : DBState) (b : Int) :
    insert db b false
      = ({ flushPending db with pending := [⟨nextId (flushPending db).rows, b⟩] },
         .ok (nextId (flushPending db).rows)) := rfl

/-- The drain loop always reaches exhaustion: nothing of the stream is left. -/
theorem drainLoop_eq_nil (l : List StreamItem) : drainLoop l = [] := by
  induction l with
  | nil => rfl
  | cons x xs ih => exact ih

/-- The select loop over a pure row stream collects all ids in order. -/
theorem selectLoop_rows (ids : List Int) (b : Int) :
    ∀ acc, selectLoop (ids.map (fun i => StreamItem.row ⟨i, b⟩)) acc = .ok (acc ++ ids) := by
  induction ids with
  | nil => intro acc; simp [selectLoop]
  | cons i is ih =>
    intro acc
    simp only [List.map_cons, selectLoop]
    rw [ih]
    simp

/-- Characterization of `select`: it returns the matching ids in ascending order. -/
theorem select_eq (db : DBState) (b : Int) : select db b = .ok (selectedIds db b) := by
  unfold select execSelect
  rw [selectLoop_rows]
  simp

/-- Inserting an element below a list's members puts it at the head. -/
theorem insertSorted_of_le (x : Int) (l : List Int) (h : ∀ y ∈ l, x ≤ y) :
    insertSorted x l = x :: l := by
  cases l with
  | nil => rfl
  | cons y ys => simp [insertSorted, h y (List.mem_cons_self y ys)]

/-- Sorting a list already in ascending order leaves it unchanged. -/
theorem sortIds_of_sorted : ∀ {l : List Int}, List.Pairwise (· ≤ ·) l → sortIds l = l := by
  intro l h
  induction l with
  | nil => rfl
  | cons x xs ih =>
    rw [List.pairwise_cons] at h
    simp only [sortIds]
    rw [ih h.2, insertSorted_of_le x xs h.1]

/-- A batch with no matching rows filters to nothing. -/
theorem filteredIds_eq_nil {db : DBState} {b : Int} (h : ∀ r ∈ db.rows, r.batch_id ≠ b) :
    filteredIds db b = [] := by
  unfold filteredIds
  rw [List.filter_eq_nil_iff.mpr (by intro r hr; simp [h r hr])]
  rfl

/-- Every insert operation of either variant, under either schedule, returns
the fresh id computed over the completed rows. -/
theorem applyOp_snd (db : DBState) (op : Op) :
    (applyOp db op).2 = .ok (nextId (flushPending db).rows) := by
  cases op with
  | ins b f => cases f <;> rfl
  | fins b => rfl

/-- Once the statement of any insert operation has committed, the engine's
rows are the prior completed rows plus the one new row. -/
theorem applyOp_flush (db : DBState) (op : Op) :
    flushPending (applyOp db op).1
      = { flushPending db with
          rows := (flushPending db).rows
            ++ [⟨nextId (flushPending db).rows, opBatch op⟩] } := by
  cases op with
  | ins b f =>
    cases f with
    | false => rfl
    | true =>
      show flushPending (full_insert db b).1 = _
      rw [full_insert_eq]
      exact flushPending_eq_self rfl
  | fins b =>
    show flushPending (full_insert db b).1 = _
    rw [full_insert_eq]
    exact flushPending_eq_self rfl

/-- Unfolding one step of the ids a run of operations returns. -/
theorem runOps_cons_ids (db : DBState) (op : Op) (ops : List Op) :
    (runOps db (op :: ops)).2
      = nextId (flushPending db).rows :: (runOps (applyOp db op).1 ops).2 := by
  simp only [runOps, applyOp_snd, List.singleton_append]

/-- Every id a run of operations returns exceeds the largest id the engine
held before the run, and the returned ids are strictly increasing in
completion order — under every schedule of the fetch-one race. -/
theorem runOps_ids_spec : ∀ (ops : List Op) (db : DBState),
    (∀ i ∈ (runOps db ops).2, maxId (flushPending db).rows < i)
      ∧ List.Pairwise (· < ·) (runOps db ops).2 := by
  intro ops
  induction ops with
  | nil =>
    intro db
    simp [runOps]
  | cons op ops ih =>
    intro db
    rw [runOps_cons_ids]
    obtain ⟨h1, h2⟩ := ih (applyOp db op).1
    have h1' : ∀ i ∈ (runOps (applyOp db op).1 ops).2,
        maxId ((flushPending db).rows
          ++ [⟨nextId (flushPending db).rows, opBatch op⟩]) < i := by
      intro i hi
      have h := h1 i hi
      rw [applyOp_flush] at h
      exact h
    have hmax := maxId_snoc_nextId (flushPending db).rows (opBatch op)
    have hn : nextId (flushPending db).rows = maxId (flushPending db).rows + 1 := rfl
    constructor
    · intro i hi
      rcases List.mem_cons.mp hi with rfl | hm
      · omega
      · have := h1' i hm
        rw [hmax] at this
        omega
    · rw [List.pairwise_cons]
      refine ⟨?_, h2⟩
      intro i hi
      have := h1' i hi
      rw [hmax] at this
      exact this

/-- Appending rows to the table appends their matching ids to the filtered ids. -/
theorem filteredIds_append (db : DBState) (l : List Row) (b : Int) :
    filteredIds { db with rows := db.rows ++ l } b
      = filteredIds db b ++ (l.filter (fun r => r.batch_id == b)).map Row.id := by
  unfold filteredIds
  simp [List.filter_append]

/-- Unfolding one step of `runBatches`: the two `full_insert` calls of the head
batch commit two rows with consecutive fresh ids and return those ids. -/
theorem runBatches_cons (db : DBState) (b : Int) (bs : List Int) :
    runBatches db (b :: bs)
      = ((runBatches
            { flushPending db with
              rows := (flushPending db).rows
                ++ [⟨nextId (flushPending db).rows, b⟩,
                    ⟨nextId (flushPending db).rows + 1, b⟩] } bs).1,
         (b, .ok (nextId (flushPending db).rows),
          .ok (nextId (flushPending db).rows + 1))
           :: (runBatches
                { flushPending db with
                  rows := (flushPending db).rows
                    ++ [⟨nextId (flushPending db).rows, b⟩,
                        ⟨nextId (flushPending db).rows + 1, b⟩] } bs).2) := by
  have hflush : flushPending ({ flushPending db with
      rows := (flushPending db).rows ++ [⟨nextId (flushPending db).rows, b⟩] } : DBState)
      = { flushPending db with
          rows := (flushPending db).rows ++ [⟨nextId (flushPending db).rows, b⟩] } :=
    flushPending_eq_self rfl
  have h2 : nextId ((flushPending db).rows ++ [⟨nextId (flushPending db).rows, b⟩])
      = nextId (flushPending db).rows + 1 := by
    show maxId ((flushPending db).rows ++ [⟨nextId (flushPending db).rows, b⟩]) + 1
        = nextId (flushPending db).rows + 1
    rw [maxId_snoc_nextId]
  simp only [runBatches, full_insert_eq]
  simp [hflush, h2]

/-- Batches later in a run never touch the filtered ids of a batch not among
them (stated for states with no pending statement, as produced by every
`full_insert` step). -/
theorem runBatches_filteredIds_frame : ∀ (bs : List Int) (db : DBState) (b : Int),
    db.pending = [] → b ∉ bs → filteredIds (runBatches db bs).1 b = filteredIds db b := by
  intro bs
  induction bs with
  | nil =>
    intro db b _ _
    simp [runBatches]
  | cons b' bs ih =>
    intro db b hp hb
    have hbb' : b ≠ b' := fun h => hb (List.mem_cons.mpr (Or.inl h))
    have hbs : b ∉ bs := fun h => hb (List.mem_cons.mpr (Or.inr h))
    rw [runBatches_cons]
    rw [ih _ b rfl hbs]
    rw [flushPending_eq_self hp]
    rw [filteredIds_append]
    simp [Ne.symm hbb']

/-- C1: for every batch id, `full_insert`, after obtaining the first row of the
insert's result stream, continues pulling from the stream until exhaustion —
the unread remainder of the stream at the moment the function returns (which
is when the pooled connection is released) is empty — and returns the
generated primary key taken from that first row. -/
theorem c1_full_insert_drains_and_returns_first_id (db : DBState) (b : Int) :
    fullInsertRun (execInsertReturning db b).2
        = (.ok (nextId (flushPending db).rows), [])
      ∧ (full_insert db b).2 = .ok (nextId (flushPending db).rows) :=
  ⟨rfl, rfl⟩

/-- C2: for every starting state and every list of pairwise-distinct batch ids
none of which occurs in the existing (committed or still-pending) rows,
running two `full_insert` calls per
batch (the serialization of the two concurrent calls, valid in either order
since both calls are the same operation on the same batch and each fully
drains its statement on its exclusively owned connection before release) and
then selecting that batch returns exactly the two ids those two calls
produced — no foreign ids, no omissions; this holds for arbitrarily long
back-to-back runs, in particular for 10000 distinct batch ids. -/
theorem c2_two_full_inserts_then_select_exact : ∀ (bs : List Int) (db : DBState),
    bs.Nodup → (∀ r ∈ (flushPending db).rows, r.batch_id ∉ bs) →
    ∀ b o1 o2, (b, o1, o2) ∈ (runBatches db bs).2 →
    ∃ i1 i2, o1 = .ok i1 ∧ o2 = .ok i2 ∧
      select (runBatches db bs).1 b = .ok [i1, i2] ∧ i1 < i2 := by
  intro bs
  induction bs with
  | nil =>
    intro db _ _ b o1 o2 h
    simp [runBatches] at h
  | cons b' bs ih =>
    intro db hnd hfresh b o1 o2 hmem
    obtain ⟨hb'bs, hndbs⟩ := List.nodup_cons.mp hnd
    rw [runBatches_cons] at hmem ⊢
    rcases List.mem_cons.mp hmem with heq | htail
    · simp only [Prod.mk.injEq] at heq
      obtain ⟨hb, ho1, ho2⟩ := heq
      subst hb
      refine ⟨nextId (flushPending db).rows, nextId (flushPending db).rows + 1,
        ho1, ho2, ?_, by omega⟩
      rw [select_eq]
      have hframe := runBatches_filteredIds_frame bs
        { flushPending db with
          rows := (flushPending db).rows
            ++ [⟨nextId (flushPending db).rows, b⟩,
                ⟨nextId (flushPending db).rows + 1, b⟩] } b rfl hb'bs
      unfold selectedIds
      rw [hframe, filteredIds_append,
        filteredIds_eq_nil (fun r hr => fun h => hfresh r hr (h ▸ List.mem_cons_self b bs))]
      have : sortIds [nextId (flushPending db).rows, nextId (flushPending db).rows + 1]
          = [nextId (flushPending db).rows, nextId (flushPending db).rows + 1] := by
        refine sortIds_of_sorted ?_
        refine List.pairwise_cons.mpr ⟨?_, List.pairwise_singleton _ _⟩
        intro y hy
        rw [List.mem_singleton] at hy
        omega
      simp only [List.filter, List.map, List.nil_append]
      simp [this]
    · have hfresh2 : ∀ r ∈ (flushPending ({ flushPending db with
          rows := (flushPending db).rows
            ++ [⟨nextId (flushPending db).rows, b'⟩,
                ⟨nextId (flushPending db).rows + 1, b'⟩] } : DBState)).rows,
          r.batch_id ∉ bs := by
        intro r hr
        rw [flushPending_eq_self rfl] at hr
        have hr' : r ∈ (flushPending db).rows
            ++ [⟨nextId (flushPending db).rows, b'⟩,
                ⟨nextId (flushPending db).rows + 1, b'⟩] := hr
        rcases List.mem_append.mp hr' with hold | hnew
        · exact fun h => hfresh r hold (List.mem_cons_of_mem _ h)
        · rcases List.mem_cons.mp hnew with rfl | hnew2
          · exact hb'bs
          · rcases List.mem_cons.mp hnew2 with rfl | hnil
            · exact hb'bs
            · cases hnil
      exact ih _ hndbs hfresh2 b o1 o2 htail

/-- Witness for C2 at a concrete run: the empty database, batches 5 and 9. -/
theorem c2_witness :
    ∃ i1 i2, Outcome.ok (1 : Int) = .ok i1 ∧ Outcome.ok (2 : Int) = .ok i2 ∧
      select (runBatches ⟨true, true, [], []⟩ [5, 9]).1 5 = .ok [i1, i2] ∧ i1 < i2 :=
  c2_two_full_inserts_then_select_exact [5, 9] ⟨true, true, [], []⟩
    (by decide) (by decide) 5 (.ok 1) (.ok 2) (by decide)

/-- C3, counterexample: the source surfaces no failure as a typed error value —
its operations return bare `i64`, and on the empty-result failure `insert`
panics inside `.unwrap()` (a `RowNotFound` error) and `full_insert` runs an
explicit panic with message "insert failed": an abrupt termination of the
task, not a returned failure value. -/
theorem c3_counterexample :
    (insertRun []).1 = .panicked (.unwrapFailed .rowNotFound)
      ∧ (fullInsertRun []).1 = .panicked (.explicitPanic "insert failed") :=
  ⟨rfl, rfl⟩

/-- C3, amended: every failure an operation observes (a stream error — which is
how pool-acquire timeouts, busy timeouts and statement failures surface — or
an empty result where a row was required) aborts that operation and surfaces
as a panic carrying that distinct failure; it is not swallowed and not
converted to a default value, but it is an abrupt termination rather than a
typed return. -/
theorem c3_failures_abort_as_panics (e : SqlxError) (rest : List StreamItem)
    (acc : List Int) :
    (insertRun (.err e :: rest)).1 = .panicked (.unwrapFailed e)
      ∧ (fullInsertRun (.err e :: rest)).1 = .panicked (.unwrapFailed e)
      ∧ (insertRun []).1 = .panicked (.unwrapFailed .rowNotFound)
      ∧ (fullInsertRun []).1 = .panicked (.explicitPanic "insert failed")
      ∧ selectLoop (.err e :: rest) acc = .panicked (.unwrapFailed e) :=
  ⟨rfl, rfl, rfl, rfl, rfl⟩

/-- C4, counterexample: from the empty database, the two-inserts-then-select
scenario of batch 7 run through `insert` returns ids 1 and 2, yet when the
second statement is not finalized before its connection is released (the race
`fetch_one` permits and the source's flaky test intermittently hits), the
select sees only [1]; the same scenario through `full_insert` yields [1, 2].
The two variants are not observationally equivalent. -/
theorem c4_counterexample :
    select (insert (insert ⟨true, true, [], []⟩ 7 true).1 7 false).1 7 = .ok [1]
      ∧ (insert (insert ⟨true, true, [], []⟩ 7 true).1 7 false).2 = .ok 2
      ∧ select (full_insert (full_insert ⟨true, true, [], []⟩ 7).1 7).1 7
          = .ok [1, 2] := by
  decide

/-- C4, amended: from every state, `insert` and `full_insert` execute the same
statement and return the same generated primary key; but they are
observationally equivalent — same resulting state, and the
two-inserts-then-select scenario agreeing — only under the schedule where the
single-row primitive's statement is finalized before the connection is
released, the guarantee `full_insert`'s drain enforces and `fetch_one` leaves
to a race. -/
theorem c4_insert_equiv_full_insert_when_finalized (db : DBState) (b : Int) :
    insert db b true = full_insert db b
      ∧ (insert db b false).2 = (full_insert db b).2
      ∧ select (insert (insert db b true).1 b true).1 b
          = select (full_insert (full_insert db b).1 b).1 b :=
  ⟨rfl, rfl, rfl⟩

/-- C5: `full_insert` fails with the empty-result failure (the explicit panic
with message "insert failed") exactly when its result stream reports
exhaustion having yielded nothing; in particular when a first row is yielded,
that failure is not raised. -/
theorem c5_empty_result_iff_zero_rows (items : List StreamItem) :
    (fullInsertRun items).1 = .panicked (.explicitPanic "insert failed")
      ↔ items = [] := by
  cases items with
  | nil => simp [fullInsertRun]
  | cons x rest =>
    cases x with
    | row r => simp [fullInsertRun]
    | err e => simp [fullInsertRun]

/-- C6, evaluation at the failing input: two sequential `insert` calls of
batch 7 from the empty database return ids 1 and 2, but when the second
statement's finalize loses the race with the connection's return to the pool
(the schedule the source's own flaky test intermittently hits), the
subsequent select misses the still-uncommitted row and returns [1] instead of
the insertion order [1, 2] the claim requires. -/
theorem c6_failing_input_eval :
    (runOps ⟨true, true, [], []⟩ [Op.ins 7 true, Op.ins 7 false]).2 = [1, 2]
      ∧ select (runOps ⟨true, true, [], []⟩ [Op.ins 7 true, Op.ins 7 false]).1 7
          = .ok [1] := by
  decide

/-- C7: across the lifetime of one handle, the ids returned by any run of
insert operations (either variant, any batches, under every schedule of the
finalize-before-release race) are strictly increasing in completion order —
every id exceeds every earlier one, so all are unique. Ids are assigned at
statement execution, which serializes behind the prior insert's commit on
SQLite's write lock, so this does not rest on post-return row visibility. -/
theorem c7_ids_strictly_increasing (db : DBState) (ops : List Op) :
    List.Pairwise (· < ·) (runOps db ops).2 :=
  (runOps_ids_spec ops db).2

/-- C8: `select` of a batch id that never received an insert returns the empty
sequence as a normal, non-panicking outcome. -/
theorem c8_select_unknown_batch_empty (db : DBState) (b : Int)
    (h : ∀ r ∈ db.rows, r.batch_id ≠ b) :
    select db b = .ok [] := by
  rw [select_eq]
  unfold selectedIds
  rw [filteredIds_eq_nil h]
  rfl

/-- Witness for C8: a database holding one row of batch 3, queried for batch 5. -/
theorem c8_witness : select ⟨true, true, [⟨1, 3⟩], []⟩ 5 = .ok [] :=
  c8_select_unknown_batch_empty ⟨true, true, [⟨1, 3⟩], []⟩ 5 (by decide)

/-- C9: running the schema-initialization script a second time (the second
sequential open of the same file) is the identity — it never errors (it is a
total function on states) and leaves every existing row unchanged. -/
theorem c9_init_db_idempotent (db : DBState) :
    init_db (init_db db) = init_db db
      ∧ (init_db (init_db db)).rows = (init_db db).rows := by
  have h : init_db (init_db db) = init_db db := by
    unfold init_db createTableIfNotExists createIndexIfNotExists
    by_cases h1 : db.table_exists <;> by_cases h2 : db.index_exists <;> simp [h1, h2]
  exact ⟨h, by rw [h]⟩

/-- C10: the drain loop of `full_insert` consumes items while discarding their
error status, so a stream that reports an error after the first row still
terminates (the stream is fused and reaches exhaustion) and the call returns
the first row's id without failing. -/
theorem c10_drain_discards_errors (r : Row) (e : SqlxError) (rest : List StreamItem) :
    fullInsertRun (.row r :: .err e :: rest) = (.ok r.id, []) := by
  simp [fullInsertRun, drainLoop_eq_nil]

end SqlxConsistency
